import Mathlib

/-!
Verification of the metadata reconciliation and asset-merge engine of this
repository (scripts/Enrich_Meta_Gpt.py, with the change-fingerprint loop of
scripts/auto_meta.py in view for idempotence).

Modelling conventions:
  * Python strings are `List Char` (`Str`), so every operation is computable
    by the kernel; `String.data` turns a literal into its character list.
  * YAML-ish Python values (the contents of `meta.yaml` fields and of the
    fragments returned by providers) are the inductive `Value`, with its own
    list and mapping spines `VList` and `VDict` so that recursion over
    nested values is structural.
  * A Python dict such as `meta` is an association list `Meta` with unique
    keys in insertion order; `setV` updates the binding in place (as a dict
    assignment does) and appends a missing key at the end.
  * Provider calls perform I/O; a provider body is modelled as a function of
    the outcome of its fetch (`Except Unit _`), and `enrich` takes the four
    already-fetched asset fragments and the model-extracted fragment as
    arguments, in the order the script passes them to `merge_assets`.
  * Python code that would raise an uncaught exception is modelled by
    `Option`/`Except` error results.
-/

/-- A Python string, as its list of characters. -/
abbrev Str := List Char

/-- Python `str.strip()`: drop whitespace from both ends. -/
def strTrim (s : Str) : Str :=
  ((s.dropWhile Char.isWhitespace).reverse.dropWhile Char.isWhitespace).reverse

/-- Python `str.lower()` (ASCII case folding, as used on the TODO marker). -/
def strToLower (s : Str) : Str := s.map Char.toLower

/-- Python `str.upper()`. -/
def strToUpper (s : Str) : Str := s.map Char.toUpper

/-- Python `str.startswith(p)`. -/
def strStarts : Str → Str → Bool
  | _, [] => true
  | [], _ :: _ => false
  | a :: as, b :: bs => a == b && strStarts as bs

/-- Python string comparison `s <= t`: lexicographic on code points. -/
def lexLe : Str → Str → Bool
  | [], _ => true
  | _ :: _, [] => false
  | a :: as, b :: bs => if a < b then true else if b < a then false else lexLe as bs

mutual
/-- A YAML-ish value, the shape `is_stub` and the enrichment loop work on:
strings, sequences, mappings, booleans, integers and null, with sequences and
mappings carried by their own spines `VList` and `VDict`. -/
inductive Value where
  | str (s : Str)
  | list (l : VList)
  | dict (d : VDict)
  | bool (b : Bool)
  | int (n : Int)
  | null

inductive VList where
  | nil
  | cons (hd : Value) (tl : VList)

inductive VDict where
  | nil
  | cons (key : Str) (val : Value) (tl : VDict)
end

/-- Whether a `VList` is the empty sequence. -/
def vlistIsNil : VList → Bool
  | .nil => true
  | .cons _ _ => false

/-- Whether a `VDict` is the empty mapping. -/
def vdictIsNil : VDict → Bool
  | .nil => true
  | .cons _ _ _ => false

/-- Python truthiness of a value: empty string, empty sequence, empty
mapping, `False`, `0` and `None` are falsy, everything else truthy. -/
def truthy : Value → Bool
  | .str s => !s.isEmpty
  | .list l => !vlistIsNil l
  | .dict d => !vdictIsNil d
  | .bool b => b
  | .int n => n != 0
  | .null => false

mutual
/-- `is_stub` of Enrich_Meta_Gpt.py (lines 141-148): a string is a stub when,
stripped, it is empty or starts with the lowercased marker `todo`; a sequence
is a stub when all elements are; a mapping when all values are; any other
value is a stub exactly when it is falsy (`return not v`). -/
def is_stub : Value → Bool
  | .str s => strStarts (strToLower (strTrim s)) "todo".data || strTrim s == []
  | .list l => all_stub l
  | .dict d => all_stub_vals d
  | .bool b => !b
  | .int n => n == 0
  | .null => true

def all_stub : VList → Bool
  | .nil => true
  | .cons x xs => is_stub x && all_stub xs

def all_stub_vals : VDict → Bool
  | .nil => true
  | .cons _ v xs => is_stub v && all_stub_vals xs
end

/-- Whether a value falls outside the three shapes `is_stub` inspects
(string, sequence, mapping): the `return not v` branch. -/
def isOtherScalar : Value → Bool
  | .str _ => false
  | .list _ => false
  | .dict _ => false
  | .bool _ => true
  | .int _ => true
  | .null => true

/-- One asset entry, the dicts `dict(file=…, format=…, description=…)` every
provider builds and `merge_assets` deduplicates by `file`. -/
structure Asset where
  file : Str
  format : Str
  description : Str
deriving DecidableEq

/-- The loop of `merge_assets` (lines 109-115): walk the entries in order,
keep an entry whose `file` is unseen, drop any later entry with a seen
`file`. The two nested Python loops visit exactly the concatenation of the
source lists, which the caller flattens. -/
def mergeLoop (seen : List Str) : List Asset → List Asset
  | [] => []
  | d :: rest =>
    if d.file ∈ seen then mergeLoop seen rest
    else d :: mergeLoop (d.file :: seen) rest

/-- The sort key of `merge_assets`: entry order by `file`, ascending. -/
def assetLe (a b : Asset) : Prop := lexLe a.file b.file = true

instance : DecidableRel assetLe := fun a b =>
  inferInstanceAs (Decidable (lexLe a.file b.file = true))

/-- `merge_assets` (lines 108-116): first occurrence of each `file` wins,
later occurrences are dropped, and the result is `sorted(…, key=file)`
(a stable sort, here insertion sort). -/
def merge_assets (sources : List (List Asset)) : List Asset :=
  List.insertionSort assetLe (mergeLoop [] sources.flatten)

/-- The in-memory `meta` dict: bindings in insertion order, keys unique. -/
abbrev Meta := List (Str × Value)

/-- Python `meta.get(k)` (as `Option`): first binding of the key, if any. -/
def getV : Meta → Str → Option Value
  | [], _ => none
  | p :: rest, k => if p.1 = k then some p.2 else getV rest k

/-- Python `meta[k] = v`: replace the binding in place, append if absent. -/
def setV : Meta → Str → Value → Meta
  | [], k, v => [(k, v)]
  | p :: rest, k, v => if p.1 = k then (k, v) :: rest else p :: setV rest k v

/-- Python `meta.get(k, d)`. -/
def getD (m : Meta) (k : Str) (d : Value) : Value := (getV m k).getD d

/-- The test `not meta.get(k) or is_stub(meta[k])` on a looked-up value:
true when the key is absent, its value falsy, or its value a stub. -/
def needFillV : Option Value → Bool
  | none => true
  | some v => !truthy v || is_stub v

/-- `not meta.get(k) or is_stub(meta[k])` (lines 165 and 177). -/
def needFill (m : Meta) (k : Str) : Bool := needFillV (getV m k)

/-- One iteration of the field loop (lines 174-179) for key `k`:
`if overwrite or not meta.get(k) or is_stub(meta[k]): if gpt_meta.get(k):
meta[k] = gpt_meta[k]`. -/
def enrichField (o : Bool) (gpt : Meta) (m : Meta) (k : Str) : Meta :=
  if o || needFill m k then
    match getV gpt k with
    | some c => if truthy c then setV m k c else m
    | none => m
  else m

/-- The non-asset keys of `META_TEMPLATE` (lines 41-49), in template order,
with `assets` skipped as the loop does (lines 175-176). -/
def fieldKeys : List Str :=
  ["title".data, "description".data, "source".data, "license".data,
   "tags".data, "transformations".data]

/-- The field loop `for k in META_TEMPLATE` over the non-asset keys. -/
def enrichFields (o : Bool) (gpt : Meta) (m : Meta) : Meta :=
  fieldKeys.foldl (enrichField o gpt) m

/-- The value a looked-up field would resolve to at its loop iteration, as a
function of the current binding alone (the iteration only reads and writes
its own key). -/
def fieldResult (o : Bool) (gpt : Meta) (cur : Option Value) (k : Str) :
    Option Value :=
  match getV gpt k with
  | some c => if (o || needFillV cur) && truthy c then some c else cur
  | none => cur

/-- The literal default installed for `transformations` (line 182). -/
def transformDefault : Value := Value.str "None — preserved as-is".data

/-- Lines 181-182: `if "transformations" not in meta or
is_stub(meta["transformations"]): meta["transformations"] = "None — preserved
as-is"`. -/
def applyTransformDefault (m : Meta) : Meta :=
  match getV m "transformations".data with
  | none => setV m "transformations".data transformDefault
  | some v =>
    if is_stub v then setV m "transformations".data transformDefault else m

/-- A Lean list of values as a `VList` spine. -/
def vlistOf : List Value → VList
  | [] => .nil
  | v :: rest => .cons v (vlistOf rest)

/-- An asset entry as the dict value the script stores under `assets`. -/
def assetToValue (a : Asset) : Value :=
  Value.dict (.cons "file".data (Value.str a.file)
    (.cons "format".data (Value.str a.format)
      (.cons "description".data (Value.str a.description) .nil)))

/-- A list of asset entries as a stored `assets` value. -/
def encodeAssets (l : List Asset) : Value :=
  Value.list (vlistOf (l.map assetToValue))

/-- Read one asset entry out of a fragment value: the well-formed
`{file, format, description}` dicts the providers produce. Any other shape
would make the Python `merge_assets` raise on `d["file"]`, modelled as
failure. -/
def decodeAsset : Value → Option Asset
  | .dict (.cons k1 (.str f) (.cons k2 (.str fm) (.cons k3 (.str d) .nil))) =>
    if k1 = "file".data ∧ k2 = "format".data ∧ k3 = "description".data then
      some { file := f, format := fm, description := d }
    else none
  | _ => none

/-- Read an asset-entry list out of a fragment value spine. -/
def decodeAssetSpine : VList → Option (List Asset)
  | .nil => some []
  | .cons v rest =>
    match decodeAsset v, decodeAssetSpine rest with
    | some a, some l => some (a :: l)
    | _, _ => none

/-- Read `gpt_meta.get("assets", [])` as a list of asset entries; a
non-sequence value (over which the Python merge loop would raise) fails. -/
def decodeAssetList : Value → Option (List Asset)
  | .list l => decodeAssetSpine l
  | _ => none

/-- The assets block of `enrich` (lines 165-171): when `overwrite` is set or
the current `assets` is absent, falsy or a stub, replace it with the merge of
the four provider fragments, in the script's precedence order
(`assets_from_bb`, `assets_from_disk`, `gpt_meta.get("assets", [])`,
`assets_from_status`). -/
def assetsStep (o : Bool) (bb disk status : List Asset) (gpt : Meta)
    (m : Meta) : Option Meta :=
  if o || needFill m "assets".data then
    match decodeAssetList (getD gpt "assets".data (Value.list .nil)) with
    | some ga =>
      some (setV m "assets".data
        (encodeAssets (merge_assets [bb, disk, ga, status])))
    | none => none
  else some m

/-- The pure core of `enrich` (lines 161-184): assets block, then the field
loop over the non-asset template keys, then the `transformations` default.
`o` is the `--overwrite` flag (OVERWRITE mode; false is FILL_MISSING),
`bb`, `disk` and `status` the fetched asset fragments, `gpt` the
model-extracted fragment, `m` the existing record. -/
def enrich (o : Bool) (bb disk status : List Asset) (gpt : Meta)
    (m : Meta) : Option Meta :=
  match assetsStep o bb disk status gpt m with
  | none => none
  | some m1 => some (applyTransformDefault (enrichFields o gpt m1))

/-- `scrape_status` (lines 57-63): the fetched page text, or `""` when the
request raises (`except Exception: return ""`). -/
def scrape_status (fetch : Except Unit Str) : Str :=
  match fetch with
  | .ok text => text
  | .error _ => []

/-- Python `pathlib` name of a path: the part after the last `/`. -/
def pathName (p : Str) : Str :=
  (List.splitOn '/' p).getLastD []

/-- Python `pathlib` suffix of a name: the last `.`-led extension, empty when
the only dot leads the name or ends it (`name[i:]` for `0 < i < len-1` where
`i = name.rfind(".")`). -/
def pathSuffix (p : Str) : Str :=
  let n := pathName p
  let ext := n.reverse.takeWhile (fun c => c ≠ '.')
  if ext.length = n.length then []
  else if ext.length = 0 then []
  else if n.length - 1 - ext.length = 0 then []
  else '.' :: ext.reverse

/-- `EXT2FMT` (lines 36-39): known data extensions and their format codes. -/
def EXT2FMT : List (Str × Str) :=
  [("parquet".data, "Parquet".data), ("csv".data, "CSV".data),
   ("tsv".data, "TSV".data), ("json".data, "JSON".data),
   ("h5".data, "HDF5".data), ("hdf5".data, "HDF5".data)]

/-- Python `dict.get(k, d)` over an association list. -/
def lookupKV (l : List (Str × Str)) (k d : Str) : Str :=
  match l with
  | [] => d
  | p :: rest => if p.1 = k then p.2 else lookupKV rest k d

/-- Python `str.lstrip(".")`: drop leading dots. -/
def stripDots (s : Str) : Str := s.dropWhile (fun c => c = '.')

/-- `assets_from_bb` (lines 74-86): on any failure of `bb.assets` return `[]`
(`except Exception: return []`); otherwise map each `(alias, path)` item of
the namespace to an entry with the path's base name, the format looked up by
lowercased extension with the uppercased suffix as fallback, and the alias
with underscores spaced as description. -/
def assets_from_bb (fetch : Except Unit (List (Str × Str))) : List Asset :=
  match fetch with
  | .error _ => []
  | .ok items =>
    items.map (fun ap =>
      { file := pathName ap.2
        format := lookupKV EXT2FMT (strToLower (stripDots (pathSuffix ap.2)))
          (strToUpper (pathSuffix ap.2))
        description := ap.1.map (fun c => if c = '_' then ' ' else c) })

/-- A parsed YAML mapping as a `Meta` association list. -/
def metaOfVDict : VDict → Meta
  | .nil => []
  | .cons k v rest => (k, v) :: metaOfVDict rest

/-- `gpt_extract_meta` (lines 119-139): with no API key return `{}` before
any call; otherwise the ChatCompletion request runs outside the
`try`, so a failing call raises out of the function, while the `try` around
reading and YAML-parsing the response turns any parse failure, and any
non-mapping parse, into `{}`. `call` is the request outcome; its payload is
the outcome of reading and parsing the response text. -/
def gpt_extract_meta (apiKey : Option Str)
    (call : Except Unit (Except Unit Value)) : Except Unit Meta :=
  match apiKey with
  | none => .ok []
  | some _ =>
    match call with
    | .error e => .error e
    | .ok parsed =>
      .ok (match parsed with
        | .ok (Value.dict d) => metaOfVDict d
        | _ => [])

/-! ### Order lemmas for the sort key -/

theorem lexLe_cons_iff (a b : Char) (as bs : Str) :
    lexLe (a :: as) (b :: bs) = true ↔ (a < b ∨ (a = b ∧ lexLe as bs = true)) := by
  show (if a < b then true else if b < a then false else lexLe as bs) = true ↔ _
  by_cases h1 : a < b
  · simp [h1]
  · by_cases h2 : b < a
    · simp [h1, h2]
      intro h
      exact absurd (h ▸ h2) (lt_irrefl a)
    · have hab : a = b := le_antisymm (not_lt.mp h2) (not_lt.mp h1)
      subst hab
      simp [h1, h2]

theorem lexLe_total : ∀ s t : Str, lexLe s t = true ∨ lexLe t s = true
  | [], _ => Or.inl rfl
  | _ :: _, [] => Or.inr rfl
  | a :: as, b :: bs => by
    rcases lt_trichotomy a b with h | h | h
    · exact Or.inl ((lexLe_cons_iff a b as bs).mpr (Or.inl h))
    · subst h
      rcases lexLe_total as bs with ih | ih
      · exact Or.inl ((lexLe_cons_iff a a as bs).mpr (Or.inr ⟨rfl, ih⟩))
      · exact Or.inr ((lexLe_cons_iff a a bs as).mpr (Or.inr ⟨rfl, ih⟩))
    · exact Or.inr ((lexLe_cons_iff b a bs as).mpr (Or.inl h))

theorem lexLe_trans :
    ∀ s t u : Str, lexLe s t = true → lexLe t u = true → lexLe s u = true
  | [], _, _, _, _ => rfl
  | _ :: _, [], _, h1, _ => by simp [lexLe] at h1
  | _ :: _, _ :: _, [], _, h2 => by simp [lexLe] at h2
  | a :: as, b :: bs, c :: cs, h1, h2 => by
    rw [lexLe_cons_iff] at h1 h2 ⊢
    rcases h1 with h1 | ⟨rfl, h1⟩
    · rcases h2 with h2 | ⟨rfl, h2⟩
      · exact Or.inl (h1.trans h2)
      · exact Or.inl h1
    · rcases h2 with h2 | ⟨rfl, h2⟩
      · exact Or.inl h2
      · exact Or.inr ⟨rfl, lexLe_trans as bs cs h1 h2⟩

instance : IsTotal Asset assetLe := ⟨fun a b => lexLe_total a.file b.file⟩

instance : IsTrans Asset assetLe :=
  ⟨fun a b c => lexLe_trans a.file b.file c.file⟩

/-! ### Stub and truthiness lemmas -/

theorem is_stub_of_not_truthy : ∀ v : Value, truthy v = false → is_stub v = true := by
  intro v h
  cases v with
  | str s =>
    cases s with
    | nil => decide
    | cons c cs => simp [truthy] at h
  | list l =>
    cases l with
    | nil => rfl
    | cons x xs => simp [truthy, vlistIsNil] at h
  | dict d =>
    cases d with
    | nil => rfl
    | cons k x xs => simp [truthy, vdictIsNil] at h
  | bool b => cases b with
    | false => rfl
    | true => exact absurd h (by decide)
  | int n =>
    have hn : n = 0 := by simpa [truthy] using h
    simp [is_stub, hn]
  | null => rfl

theorem truthy_of_not_stub {v : Value} (h : is_stub v = false) : truthy v = true := by
  by_cases ht : truthy v = true
  · exact ht
  · have := is_stub_of_not_truthy v (by simpa using ht)
    rw [this] at h
    exact absurd h (by decide)

theorem needFillV_some (v : Value) : needFillV (some v) = is_stub v := by
  by_cases ht : truthy v = true
  · simp [needFillV, ht]
  · have hf : truthy v = false := by simpa using ht
    simp [needFillV, hf, is_stub_of_not_truthy v hf]

theorem needFillV_iff (ov : Option Value) :
    needFillV ov = true ↔ (ov = none ∨ ∃ v, ov = some v ∧ is_stub v = true) := by
  cases ov with
  | none => simp [needFillV]
  | some v => simp [needFillV_some]

/-! ### Association-list (dict) lemmas -/

theorem getV_setV_self : ∀ (m : Meta) (k : Str) (v : Value), getV (setV m k v) k = some v
  | [], k, v => by simp [setV, getV]
  | p :: rest, k, v => by
    by_cases h : p.1 = k
    · simp [setV, h, getV]
    · simp [setV, h, getV, getV_setV_self rest k v]

theorem getV_setV_ne : ∀ (m : Meta) {k q : Str} (v : Value), q ≠ k →
    getV (setV m k v) q = getV m q
  | [], k, q, v, h => by
    have hkq : ¬ k = q := fun hq => h hq.symm
    simp [setV, getV, hkq]
  | p :: rest, k, q, v, h => by
    by_cases hp : p.1 = k
    · have hkq : ¬ k = q := fun hq => h hq.symm
      subst hp
      simp [setV, getV, hkq]
    · simp [setV, hp, getV, getV_setV_ne rest v h]

theorem setV_of_getV : ∀ (m : Meta) {k : Str} {v : Value}, getV m k = some v →
    setV m k v = m
  | [], k, v, h => by simp [getV] at h
  | p :: rest, k, v, h => by
    obtain ⟨a, b⟩ := p
    by_cases hk : a = k
    · have hv : b = v := by simpa [getV, hk] using h
      simp [setV, hk, hv]
    · have h' : getV rest k = some v := by simpa [getV, hk] using h
      simp [setV, hk, setV_of_getV rest h']

theorem setV_setV : ∀ (m : Meta) (k : Str) (u v : Value),
    setV (setV m k u) k v = setV m k v
  | [], k, u, v => by simp [setV]
  | p :: rest, k, u, v => by
    by_cases hp : p.1 = k
    · simp [setV, hp]
    · simp [setV, hp, setV_setV rest k u v]

/-! ### Merge-loop lemmas -/

theorem mergeLoop_mem : ∀ (l : List Asset) (seen : List Str) (a : Asset),
    a ∈ mergeLoop seen l ↔
      (a.file ∉ seen ∧ l.find? (fun b => b.file == a.file) = some a)
  | [], seen, a => by simp [mergeLoop]
  | d :: rest, seen, a => by
    by_cases hd : d.file ∈ seen
    · rw [mergeLoop, if_pos hd, mergeLoop_mem rest seen a]
      by_cases hf : d.file = a.file
      · rw [List.find?_cons_of_pos _ (by simpa using hf)]
        constructor
        · rintro ⟨hns, -⟩
          exact absurd (hf ▸ hd) hns
        · rintro ⟨hns, -⟩
          exact absurd (hf ▸ hd) hns
      · rw [List.find?_cons_of_neg _ (by simpa using hf)]
    · rw [mergeLoop, if_neg hd]
      by_cases hf : d.file = a.file
      · rw [List.mem_cons, mergeLoop_mem rest (d.file :: seen) a,
          List.find?_cons_of_pos _ (by simpa using hf)]
        constructor
        · rintro (rfl | ⟨hns, -⟩)
          · exact ⟨hd, rfl⟩
          · have hmem : a.file ∈ d.file :: seen := by
              rw [← hf]
              exact List.mem_cons_self _ _
            exact absurd hmem hns
        · rintro ⟨-, hda⟩
          exact Or.inl (Option.some.inj hda).symm
      · rw [List.mem_cons, mergeLoop_mem rest (d.file :: seen) a,
          List.find?_cons_of_neg _ (by simpa using hf)]
        constructor
        · rintro (rfl | ⟨hns, hfind⟩)
          · exact absurd rfl hf
          · exact ⟨fun hmem => hns (List.mem_cons_of_mem _ hmem), hfind⟩
        · rintro ⟨hns, hfind⟩
          refine Or.inr ⟨?_, hfind⟩
          intro hmem
          rcases List.mem_cons.mp hmem with heq | hmem'
          · exact hf heq.symm
          · exact hns hmem'

theorem mergeLoop_pairwise : ∀ (l : List Asset) (seen : List Str),
    (mergeLoop seen l).Pairwise (fun a b => a.file ≠ b.file)
  | [], seen => by simp [mergeLoop]
  | d :: rest, seen => by
    by_cases hd : d.file ∈ seen
    · rw [mergeLoop, if_pos hd]
      exact mergeLoop_pairwise rest seen
    · rw [mergeLoop, if_neg hd]
      refine List.Pairwise.cons ?_ (mergeLoop_pairwise rest (d.file :: seen))
      intro b hb heq
      have := ((mergeLoop_mem rest (d.file :: seen) b).mp hb).1
      exact this (heq ▸ List.mem_cons_self _ _)

/-! ### Field-loop lemmas -/

theorem getV_enrichField_self (o : Bool) (gpt m : Meta) (k : Str) :
    getV (enrichField o gpt m k) k = fieldResult o gpt (getV m k) k := by
  unfold enrichField fieldResult needFill
  cases hg : getV gpt k with
  | none =>
    by_cases hc : (o || needFillV (getV m k)) = true
    · simp [hc]
    · simp [hc]
  | some c =>
    by_cases hc : (o || needFillV (getV m k)) = true
    · by_cases ht : truthy c = true
      · simp [hc, ht, getV_setV_self]
      · simp [hc, ht]
    · simp [hc]

theorem getV_enrichField_ne (o : Bool) (gpt m : Meta) {k q : Str} (h : q ≠ k) :
    getV (enrichField o gpt m k) q = getV m q := by
  unfold enrichField
  cases getV gpt k with
  | none =>
    by_cases hc : (o || needFill m k) = true
    · simp [hc]
    · simp [hc]
  | some c =>
    by_cases hc : (o || needFill m k) = true
    · by_cases ht : truthy c = true
      · simp [hc, ht, getV_setV_ne m c h]
      · simp [hc, ht]
    · simp [hc]

theorem getV_foldl_ne (o : Bool) (gpt : Meta) :
    ∀ (ks : List Str) (m : Meta) {q : Str}, q ∉ ks →
      getV (List.foldl (enrichField o gpt) m ks) q = getV m q
  | [], m, q, _ => rfl
  | k :: ks, m, q, h => by
    rw [List.foldl_cons,
      getV_foldl_ne o gpt ks (enrichField o gpt m k) (fun hq => h (List.mem_cons_of_mem _ hq)),
      getV_enrichField_ne o gpt m (fun hq => h (by rw [hq]; exact List.mem_cons_self _ _))]

theorem getV_foldl_mem (o : Bool) (gpt : Meta) :
    ∀ (ks : List Str), ks.Nodup → ∀ (m : Meta) {k : Str}, k ∈ ks →
      getV (List.foldl (enrichField o gpt) m ks) k = fieldResult o gpt (getV m k) k
  | [], _, m, k, h => absurd h (List.not_mem_nil k)
  | q :: ks, hnd, m, k, h => by
    rw [List.foldl_cons]
    rcases List.mem_cons.mp h with rfl | hk
    · rw [getV_foldl_ne o gpt ks _ (List.nodup_cons.mp hnd).1,
        getV_enrichField_self]
    · by_cases hkq : k = q
      · subst hkq
        exact absurd hk (List.nodup_cons.mp hnd).1
      · rw [getV_foldl_mem o gpt ks (List.nodup_cons.mp hnd).2 _ hk,
          getV_enrichField_ne o gpt m hkq]

theorem fieldResult_idem (o : Bool) (gpt : Meta) (cur : Option Value) (k : Str) :
    fieldResult o gpt (fieldResult o gpt cur k) k = fieldResult o gpt cur k := by
  unfold fieldResult
  cases hg : getV gpt k with
  | none => rfl
  | some c =>
    by_cases ht : truthy c = true
    · by_cases hc : (o || needFillV cur) = true
      · simp only [hc, ht, Bool.and_self, if_pos]
        by_cases hc2 : (o || needFillV (some c)) = true
        · simp [hc2, ht]
        · simp [hc2]
      · simp [hc, ht]
    · simp [ht]

theorem enrichField_fix (o : Bool) (gpt : Meta) (k : Str) {m2 : Meta}
    (h : fieldResult o gpt (getV m2 k) k = getV m2 k) :
    enrichField o gpt m2 k = m2 := by
  unfold enrichField
  unfold fieldResult at h
  cases hg : getV gpt k with
  | none =>
    by_cases hc : (o || needFill m2 k) = true
    · simp [hc]
    · simp [hc]
  | some c =>
    rw [hg] at h
    by_cases hc : (o || needFill m2 k) = true
    · by_cases ht : truthy c = true
      · have hcond : ((o || needFillV (getV m2 k)) && truthy c) = true := by
          rw [ht, Bool.and_true]
          exact hc
        have h' : (if ((o || needFillV (getV m2 k)) && truthy c) = true
            then some c else getV m2 k) = getV m2 k := h
        rw [if_pos hcond] at h'
        simp [hc, ht, setV_of_getV m2 h'.symm]
      · simp [hc, ht]
    · simp [hc]

/-! ### Transformations-default lemmas -/

theorem getV_atd_ne {q : Str} (h : q ≠ "transformations".data) (m : Meta) :
    getV (applyTransformDefault m) q = getV m q := by
  unfold applyTransformDefault
  cases getV m "transformations".data with
  | none => exact getV_setV_ne m transformDefault h
  | some v =>
    by_cases hs : is_stub v = true
    · simp [hs, getV_setV_ne m transformDefault h]
    · simp [hs]

theorem getV_atd_self (m : Meta) :
    getV (applyTransformDefault m) "transformations".data =
      (match getV m "transformations".data with
       | none => some transformDefault
       | some v => if is_stub v then some transformDefault else some v) := by
  unfold applyTransformDefault
  cases hg : getV m "transformations".data with
  | none => simp [getV_setV_self]
  | some v =>
    by_cases hs : is_stub v = true
    · simp [hs, getV_setV_self]
    · simp [hs, hg]

theorem atd_of_not_stub {m : Meta} {v : Value}
    (h : getV m "transformations".data = some v) (hs : is_stub v = false) :
    applyTransformDefault m = m := by
  unfold applyTransformDefault
  rw [h]
  simp [hs]

theorem transformDefault_not_stub : is_stub transformDefault = false := by decide

theorem atd_result_nonstub (m : Meta) :
    ∃ w, getV (applyTransformDefault m) "transformations".data = some w ∧
      is_stub w = false := by
  rw [getV_atd_self]
  cases getV m "transformations".data with
  | none => exact ⟨transformDefault, rfl, transformDefault_not_stub⟩
  | some v =>
    by_cases hs : is_stub v = true
    · exact ⟨transformDefault, by simp [hs], transformDefault_not_stub⟩
    · exact ⟨v, by simp [hs], by simpa using hs⟩

/-! ### Assets-step lemmas -/

theorem assetsStep_pos {o : Bool} {bb disk status : List Asset} {gpt m m1 : Meta}
    (h : assetsStep o bb disk status gpt m = some m1)
    (hc : (o || needFill m "assets".data) = true) :
    ∃ ga, decodeAssetList (getD gpt "assets".data (Value.list .nil)) = some ga ∧
      m1 = setV m "assets".data (encodeAssets (merge_assets [bb, disk, ga, status])) := by
  unfold assetsStep at h
  rw [if_pos hc] at h
  cases hd : decodeAssetList (getD gpt "assets".data (Value.list .nil)) with
  | none => rw [hd] at h; exact absurd h (by simp)
  | some ga =>
    rw [hd] at h
    exact ⟨ga, rfl, (Option.some.inj h).symm⟩

theorem assetsStep_neg {o : Bool} {bb disk status : List Asset} {gpt m m1 : Meta}
    (h : assetsStep o bb disk status gpt m = some m1)
    (hc : (o || needFill m "assets".data) = false) :
    m1 = m := by
  unfold assetsStep at h
  rw [if_neg (by simp [hc])] at h
  exact (Option.some.inj h).symm

theorem assetsStep_frame {o : Bool} {bb disk status : List Asset} {gpt m m1 : Meta}
    (h : assetsStep o bb disk status gpt m = some m1) {q : Str}
    (hq : q ≠ "assets".data) : getV m1 q = getV m q := by
  by_cases hc : (o || needFill m "assets".data) = true
  · obtain ⟨ga, -, hm1⟩ := assetsStep_pos h hc
    rw [hm1, getV_setV_ne m _ hq]
  · rw [assetsStep_neg h (by simpa using hc)]

theorem all_stub_vlistOf : ∀ l : List Value, all_stub (vlistOf l) = l.all is_stub
  | [] => rfl
  | v :: rest => by
    simp [vlistOf, all_stub, all_stub_vlistOf rest]

/-! ### The claims -/

/-- C1: for every sequence of asset-entry lists given in precedence order,
`merge_assets` keeps exactly the first occurrence of each `file` identity key
(every later entry with an already-seen `file` is dropped entirely), the
output is sorted by `file` ascending, and no two output entries share a
`file` value. -/
theorem C1_merge_assets_first_wins_sorted_unique (srcs : List (List Asset)) :
    (merge_assets srcs).Pairwise assetLe
    ∧ (merge_assets srcs).Pairwise (fun a b => a.file ≠ b.file)
    ∧ ∀ a : Asset, a ∈ merge_assets srcs ↔
        srcs.flatten.find? (fun b => b.file == a.file) = some a := by
  refine ⟨?_, ?_, ?_⟩
  · exact List.sorted_insertionSort assetLe _
  · exact ((List.perm_insertionSort assetLe _).pairwise_iff
      (fun h => Ne.symm h)).mpr (mergeLoop_pairwise _ [])
  · intro a
    unfold merge_assets
    rw [(List.perm_insertionSort assetLe _).mem_iff, mergeLoop_mem]
    simp

/-- C3, counterexample: a higher-precedence entry for `x.csv` with an empty
description is kept verbatim by the merge; the lower-precedence entry for the
same `file` whose description carries scraped size information is dropped
entirely, so no description refinement happens. -/
theorem C3_cex_description_not_refined :
    merge_assets
        [[{ file := "x.csv".data, format := "CSV".data, description := [] }],
         [{ file := "x.csv".data, format := "CSV".data,
            description := "Auto-detected file (12 MB)".data }]] =
      [{ file := "x.csv".data, format := "CSV".data, description := [] }]
    ∧ ([] : Str) ≠ "Auto-detected file (12 MB)".data := by
  exact ⟨rfl, by decide⟩

/-- C3, amended: when two fragments report the same `file`, the merge keeps
the higher-precedence entry entirely unchanged — `file`, `format` and
`description` alike — and drops the lower-precedence entry wholesale; no
field of the retained entry, its description included, is refined. -/
theorem C3_same_file_keeps_first_entry_verbatim (e1 e2 : Asset)
    (h : e1.file = e2.file) : merge_assets [[e1], [e2]] = [e1] := by
  unfold merge_assets
  have hflat : ([[e1], [e2]] : List (List Asset)).flatten = [e1, e2] := rfl
  have h1 : mergeLoop [] [e1, e2] = [e1] := by
    simp [mergeLoop, h.symm]
  rw [hflat, h1]
  simp [List.insertionSort, List.orderedInsert]

/-- C3, witness for the amended claim at concrete entries. -/
theorem C3_same_file_keeps_first_entry_verbatim_witness :
    merge_assets
        [[{ file := "x.csv".data, format := "CSV".data,
            description := "dose-response data".data }],
         [{ file := "x.csv".data, format := "Parquet".data,
            description := "Auto-detected file (3 GB)".data }]] =
      [{ file := "x.csv".data, format := "CSV".data,
         description := "dose-response data".data }] :=
  C3_same_file_keeps_first_entry_verbatim _ _ rfl

/-- C4: `is_stub` classifies exactly as specified — a string is a stub iff
after trimming it is empty or begins with the case-insensitive token `todo`;
a sequence is a stub iff every element is a stub (so the empty sequence is a
stub); and the six concrete classifications of the spec hold. -/
theorem C4_is_stub_classification :
    (∀ s : Str, is_stub (Value.str s) = true ↔
      (strTrim s = [] ∨ strStarts (strToLower (strTrim s)) "todo".data = true))
    ∧ (∀ l : List Value, is_stub (Value.list (vlistOf l)) = true ↔
        ∀ x ∈ l, is_stub x = true)
    ∧ is_stub (Value.str []) = true
    ∧ is_stub (Value.str "TODO: fill".data) = true
    ∧ is_stub (Value.list (vlistOf [])) = true
    ∧ is_stub (Value.list (vlistOf [Value.str "TODO".data])) = true
    ∧ is_stub (Value.list (vlistOf
        [Value.str "TODO".data, Value.str "real".data])) = false
    ∧ is_stub (Value.str "Acute Toxicity Dataset".data) = false := by
  refine ⟨?_, ?_, by decide, by decide, by decide, by decide, by decide, by decide⟩
  · intro s
    simp only [is_stub, Bool.or_eq_true, beq_iff_eq]
    exact or_comm
  · intro l
    simp only [is_stub, all_stub_vlistOf, List.all_eq_true]

/-- C8: `is_stub` is a total function on every covered shape, including
arbitrarily nested sequences and mappings (the recursion equations below),
and on every shape outside string/sequence/mapping it classifies stub
exactly when the value is falsy. -/
theorem C8_is_stub_total_falsy_fallback :
    (∀ v : Value, isOtherScalar v = true → is_stub v = !truthy v)
    ∧ (∀ l : VList, is_stub (Value.list l) = all_stub l)
    ∧ (∀ (x : Value) (l : VList),
        all_stub (VList.cons x l) = (is_stub x && all_stub l))
    ∧ (∀ d : VDict, is_stub (Value.dict d) = all_stub_vals d)
    ∧ (∀ (k : Str) (x : Value) (d : VDict),
        all_stub_vals (VDict.cons k x d) = (is_stub x && all_stub_vals d)) := by
  refine ⟨?_, fun l => rfl, fun x l => rfl, fun d => rfl, fun k x d => rfl⟩
  intro v hv
  cases v with
  | str s => simp [isOtherScalar] at hv
  | list l => simp [isOtherScalar] at hv
  | dict d => simp [isOtherScalar] at hv
  | bool b => cases b <;> rfl
  | int n =>
    show (n == 0) = !(n != 0)
    simp [bne]
  | null => rfl

/-- C8, witness: the fallback clause at the concrete scalar `None`. -/
theorem C8_is_stub_total_falsy_fallback_witness :
    is_stub Value.null = !truthy Value.null :=
  C8_is_stub_total_falsy_fallback.1 Value.null rfl

/-- C2, counterexample: in FILL_MISSING mode (`overwrite = false`), with the
current `title` a stub (the empty string), the candidate `"TODO: fill"` is
itself a stub, yet the loop installs it, because the code only tests the
candidate for truthiness (`if gpt_meta.get(k)`), not for stub-ness. Under
the claim the resolved value would have stayed the empty string. -/
theorem C2_cex_stub_candidate_installed :
    getV (enrichFields false [("title".data, Value.str "TODO: fill".data)]
        [("title".data, Value.str [])]) "title".data =
      some (Value.str "TODO: fill".data)
    ∧ is_stub (Value.str "TODO: fill".data) = true
    ∧ is_stub (Value.str []) = true :=
  ⟨rfl, by decide, by decide⟩

/-- C2, amended: for every key of the non-asset field loop, the candidate is
installed iff the mode is OVERWRITE or the current value is absent or a stub
(absent/falsy/stub, which coincide), and the candidate is present and truthy
— not, as claimed, non-stub; a truthy stub candidate is also installed.
A non-stub existing value is still never overwritten in FILL_MISSING mode. -/
theorem C2_field_policy (o : Bool) (gpt m : Meta) (k : Str)
    (hk : k ∈ fieldKeys) :
    getV (enrichFields o gpt m) k =
      (match getV gpt k with
       | some c =>
         if ((o || needFill m k) && truthy c) = true then some c else getV m k
       | none => getV m k)
    ∧ (needFill m k = true ↔
        (getV m k = none ∨ ∃ v, getV m k = some v ∧ is_stub v = true)) := by
  constructor
  · rw [show enrichFields o gpt m = List.foldl (enrichField o gpt) m fieldKeys
        from rfl,
      getV_foldl_mem o gpt fieldKeys (by decide) m hk]
    rfl
  · exact needFillV_iff (getV m k)

/-- C2, witness: a truthy candidate fills an empty `title` in FILL_MISSING
mode. -/
theorem C2_field_policy_witness :
    getV (enrichFields false [("title".data, Value.str "New title".data)]
        [("title".data, Value.str [])]) "title".data =
      some (Value.str "New title".data) :=
  (C2_field_policy false [("title".data, Value.str "New title".data)]
    [("title".data, Value.str [])] "title".data (by decide)).1.trans rfl

/-- C5: after a pass, `transformations` is always present and never a stub
(so never a raw TODO placeholder or empty); and whenever the field would
otherwise have remained absent or a stub after the field loop, it holds the
literal default `"None — preserved as-is"`. -/
theorem C5_transformations_default (o : Bool) (bb disk status : List Asset)
    (gpt m m' : Meta) (h : enrich o bb disk status gpt m = some m') :
    (∃ w, getV m' "transformations".data = some w ∧ is_stub w = false)
    ∧ ∀ m1, assetsStep o bb disk status gpt m = some m1 →
        needFill (enrichFields o gpt m1) "transformations".data = true →
          getV m' "transformations".data = some transformDefault := by
  unfold enrich at h
  cases h1 : assetsStep o bb disk status gpt m with
  | none => rw [h1] at h; exact absurd h (by simp)
  | some m1 =>
    rw [h1] at h
    have hm' : applyTransformDefault (enrichFields o gpt m1) = m' :=
      Option.some.inj h
    constructor
    · rw [← hm']
      exact atd_result_nonstub _
    · intro m1' h1' hnf
      have hm1 : m1 = m1' := Option.some.inj h1'
      rw [← hm1] at hnf
      rw [← hm', getV_atd_self]
      rcases (needFillV_iff
          (getV (enrichFields o gpt m1) "transformations".data)).mp hnf with
        hnone | ⟨v, hv, hstub⟩
      · rw [hnone]
      · rw [hv]
        simp [hstub]

/-- C5, witness: enriching the empty record with empty fragments yields the
non-stub `transformations` default. -/
theorem C5_transformations_default_witness :
    ∃ w, getV [("assets".data, encodeAssets []),
        ("transformations".data, transformDefault)] "transformations".data =
      some w ∧ is_stub w = false :=
  (C5_transformations_default false [] [] [] [] []
    [("assets".data, encodeAssets []),
     ("transformations".data, transformDefault)] rfl).1

/-- C6, counterexample: in FILL_MISSING mode with an existing non-stub,
non-empty asset list, the pass leaves `assets` exactly as it was: the disk
fragment reporting the new file `b.parquet` is ignored, not merged, contrary
to the claim that `assets` always goes through the merge. -/
theorem C6_cex_fill_mode_ignores_fragments :
    enrich false []
        [⟨"b.parquet".data, "Parquet".data, "file present".data⟩] [] []
        [("assets".data, encodeAssets
            [⟨"a.csv".data, "CSV".data, "dose-response data".data⟩]),
         ("transformations".data, Value.str "standardized".data)] =
      some [("assets".data, encodeAssets
            [⟨"a.csv".data, "CSV".data, "dose-response data".data⟩]),
         ("transformations".data, Value.str "standardized".data)]
    ∧ merge_assets [[],
        [⟨"b.parquet".data, "Parquet".data, "file present".data⟩], [], []] =
      [⟨"b.parquet".data, "Parquet".data, "file present".data⟩]
    ∧ ([⟨"a.csv".data, "CSV".data, "dose-response data".data⟩] : List Asset) ≠
      [⟨"b.parquet".data, "Parquet".data, "file present".data⟩] :=
  ⟨rfl, rfl, by decide⟩

/-- C6, amended: the merged provider asset list replaces the existing
`assets` field exactly when the mode is OVERWRITE or the existing value is
absent, falsy or a stub (in OVERWRITE mode it replaces outright, even when
every fragment is empty); otherwise the fragments are ignored and `assets`
is left unchanged. -/
theorem C6_assets_replaced_iff (o : Bool) (bb disk status : List Asset)
    (gpt m m' : Meta) (h : enrich o bb disk status gpt m = some m') :
    ((o || needFill m "assets".data) = true →
      ∃ ga, decodeAssetList (getD gpt "assets".data (Value.list .nil)) = some ga ∧
        getV m' "assets".data =
          some (encodeAssets (merge_assets [bb, disk, ga, status])))
    ∧ ((o || needFill m "assets".data) = false →
      getV m' "assets".data = getV m "assets".data) := by
  unfold enrich at h
  cases h1 : assetsStep o bb disk status gpt m with
  | none => rw [h1] at h; exact absurd h (by simp)
  | some m1 =>
    rw [h1] at h
    have hm' : applyTransformDefault (enrichFields o gpt m1) = m' :=
      Option.some.inj h
    have hAm' : getV m' "assets".data = getV m1 "assets".data := by
      rw [← hm', getV_atd_ne (show ("assets".data : Str) ≠ "transformations".data
          by decide),
        show enrichFields o gpt m1 = List.foldl (enrichField o gpt) m1 fieldKeys
          from rfl,
        getV_foldl_ne o gpt fieldKeys m1 (by decide)]
    constructor
    · intro hc
      obtain ⟨ga, hga, hm1⟩ := assetsStep_pos h1 hc
      exact ⟨ga, hga, by rw [hAm', hm1, getV_setV_self]⟩
    · intro hc
      rw [hAm', assetsStep_neg h1 hc]

/-- C6, witness: in OVERWRITE mode the merged (here empty) list replaces the
missing `assets` outright. -/
theorem C6_assets_replaced_iff_witness :
    ∃ ga, decodeAssetList (getD [] "assets".data (Value.list .nil)) = some ga ∧
      getV [("assets".data, encodeAssets []),
          ("transformations".data, transformDefault)] "assets".data =
        some (encodeAssets (merge_assets [[], [], ga, []])) :=
  (C6_assets_replaced_iff true [] [] [] [] []
    [("assets".data, encodeAssets []),
     ("transformations".data, transformDefault)] rfl).1 rfl

/-- C9, counterexample: the model-extraction provider does not degrade every
fetch failure to an empty fragment: with an API key set, a failing
ChatCompletion request (raised outside the `try`) propagates as an exception
instead of returning the empty mapping, aborting the pass. -/
theorem C9_cex_gpt_call_failure_raises :
    gpt_extract_meta (some "key".data) (Except.error ()) = Except.error ()
    ∧ (Except.error () : Except Unit Meta) ≠ Except.ok [] :=
  ⟨rfl, by simp⟩

/-- C9, amended: the status-scrape and registry providers turn every fetch
failure into an empty fragment (`""` and `[]`), the model-extraction
provider turns a missing API key and any response-parse failure into the
empty mapping but propagates a failure of the model request itself, and the
pass runs to completion on empty fragments. -/
theorem C9_provider_failures :
    (∀ e : Unit, scrape_status (.error e) = [])
    ∧ (∀ e : Unit, assets_from_bb (.error e) = [])
    ∧ (∀ (call : Except Unit (Except Unit Value)),
        gpt_extract_meta none call = .ok [])
    ∧ (∀ (key : Str) (e : Unit),
        gpt_extract_meta (some key) (.ok (.error e)) = .ok [])
    ∧ (∀ (key : Str) (e : Unit),
        gpt_extract_meta (some key) (.error e) = .error e)
    ∧ (∀ (o : Bool) (bb disk status : List Asset) (m : Meta),
        enrich o bb disk status [] m ≠ none) := by
  refine ⟨fun e => rfl, fun e => rfl, fun call => rfl, fun key e => rfl,
    fun key e => rfl, ?_⟩
  intro o bb disk status m
  unfold enrich assetsStep
  by_cases hc : (o || needFill m "assets".data) = true
  · rw [if_pos hc]
    simp [getD, getV, decodeAssetList, decodeAssetSpine]
  · rw [if_neg (by simp [hc])]
    simp

/-- C10: a pass never changes the value of any key outside the seven
reconciled fields; every other binding of the record (`brick_name`,
`dataset_type`, …) reads back unchanged. -/
theorem C10_untouched_keys_preserved (o : Bool) (bb disk status : List Asset)
    (gpt m m' : Meta) (k : Str) (h : enrich o bb disk status gpt m = some m')
    (hk : ¬(k = "assets".data ∨ k ∈ fieldKeys)) : getV m' k = getV m k := by
  obtain ⟨hka, hkf⟩ := not_or.mp hk
  unfold enrich at h
  cases h1 : assetsStep o bb disk status gpt m with
  | none => rw [h1] at h; exact absurd h (by simp)
  | some m1 =>
    rw [h1] at h
    have hm' : applyTransformDefault (enrichFields o gpt m1) = m' :=
      Option.some.inj h
    have hkt : k ≠ "transformations".data := fun he => hkf (by rw [he]; decide)
    rw [← hm', getV_atd_ne hkt,
      show enrichFields o gpt m1 = List.foldl (enrichField o gpt) m1 fieldKeys
        from rfl,
      getV_foldl_ne o gpt fieldKeys m1 hkf,
      assetsStep_frame h1 hka]

/-- C10, witness: `brick_name` reads back unchanged through a full pass. -/
theorem C10_untouched_keys_preserved_witness :
    getV [("brick_name".data, Value.str "tox21".data),
        ("assets".data, encodeAssets []),
        ("transformations".data, transformDefault)] "brick_name".data =
      getV [("brick_name".data, Value.str "tox21".data)] "brick_name".data :=
  C10_untouched_keys_preserved false [] [] [] []
    [("brick_name".data, Value.str "tox21".data)]
    [("brick_name".data, Value.str "tox21".data),
     ("assets".data, encodeAssets []),
     ("transformations".data, transformDefault)] "brick_name".data rfl
    (by decide)

/-- C7: reconciliation is idempotent — with the same provider fragments,
running the pass on its own output returns that output unchanged, so the
second run's before/after fingerprints compare equal and its change signal
is false. Determinism holds by construction: the pass is modelled as the
pure function `enrich` of the fragments and the starting record, so
identical inputs give identical records. -/
theorem C7_enrich_idempotent (o : Bool) (bb disk status : List Asset)
    (gpt m m' : Meta) (h : enrich o bb disk status gpt m = some m') :
    enrich o bb disk status gpt m' = some m' := by
  unfold enrich at h
  cases h1 : assetsStep o bb disk status gpt m with
  | none => rw [h1] at h; exact absurd h (by simp)
  | some m1 =>
    rw [h1] at h
    have hm' : applyTransformDefault (enrichFields o gpt m1) = m' :=
      Option.some.inj h
    have hAm' : getV m' "assets".data = getV m1 "assets".data := by
      rw [← hm',
        getV_atd_ne (show ("assets".data : Str) ≠ "transformations".data
          by decide),
        show enrichFields o gpt m1 = List.foldl (enrichField o gpt) m1 fieldKeys
          from rfl,
        getV_foldl_ne o gpt fieldKeys m1 (by decide)]
    have hA2 : assetsStep o bb disk status gpt m' = some m' := by
      by_cases hc1 : (o || needFill m "assets".data) = true
      · obtain ⟨ga, hga, hm1e⟩ := assetsStep_pos h1 hc1
        have hE : getV m' "assets".data =
            some (encodeAssets (merge_assets [bb, disk, ga, status])) := by
          rw [hAm', hm1e, getV_setV_self]
        unfold assetsStep
        by_cases hc2 : (o || needFill m' "assets".data) = true
        · rw [if_pos hc2, hga]
          exact congrArg some (setV_of_getV m' hE)
        · rw [if_neg (by simp [(by simpa using hc2 : (o || needFill m' "assets".data) = false)])]
      · have hc1' : (o || needFill m "assets".data) = false := by simpa using hc1
        have hm1m : m1 = m := assetsStep_neg h1 hc1'
        have heq : needFill m' "assets".data = needFill m "assets".data := by
          unfold needFill
          rw [hAm', hm1m]
        have hc2' : (o || needFill m' "assets".data) = false := by
          rw [heq]
          exact hc1'
        unfold assetsStep
        rw [if_neg (by simp [hc2'])]
    have hkey : ∀ k, k ∈ fieldKeys → k ≠ "transformations".data →
        enrichField o gpt m' k = m' := by
      intro k hk hkt
      apply enrichField_fix
      have h1' : getV m' k = fieldResult o gpt (getV m1 k) k := by
        rw [← hm', getV_atd_ne hkt,
          show enrichFields o gpt m1 =
            List.foldl (enrichField o gpt) m1 fieldKeys from rfl,
          getV_foldl_mem o gpt fieldKeys (by decide) m1 hk]
      rw [h1', fieldResult_idem]
    have hT1 : getV (enrichFields o gpt m1) "transformations".data =
        fieldResult o gpt (getV m1 "transformations".data)
          "transformations".data := by
      rw [show enrichFields o gpt m1 =
          List.foldl (enrichField o gpt) m1 fieldKeys from rfl,
        getV_foldl_mem o gpt fieldKeys (by decide) m1 (by decide)]
    have hfold : enrichFields o gpt m' =
        enrichField o gpt m' "transformations".data := by
      show List.foldl (enrichField o gpt) m' fieldKeys = _
      simp only [fieldKeys, List.foldl_cons, List.foldl_nil]
      rw [hkey "title".data (by decide) (by decide),
        hkey "description".data (by decide) (by decide),
        hkey "source".data (by decide) (by decide),
        hkey "license".data (by decide) (by decide),
        hkey "tags".data (by decide) (by decide)]
    have hTm' : getV m' "transformations".data =
        (match fieldResult o gpt (getV m1 "transformations".data)
            "transformations".data with
         | none => some transformDefault
         | some v => if is_stub v then some transformDefault else some v) := by
      rw [← hm', getV_atd_self, hT1]
    have hTall : applyTransformDefault
        (enrichField o gpt m' "transformations".data) = m' := by
      cases hg : getV gpt "transformations".data with
      | none =>
        have hstep : enrichField o gpt m' "transformations".data = m' := by
          simp [enrichField, hg]
        rw [hstep]
        obtain ⟨w, hw, hws⟩ :=
          hm' ▸ atd_result_nonstub (enrichFields o gpt m1)
        exact atd_of_not_stub hw hws
      | some c =>
        by_cases htc : truthy c = true
        · by_cases ho : o = true
          · subst ho
            have hfr : fieldResult true gpt (getV m1 "transformations".data)
                "transformations".data = some c := by
              unfold fieldResult
              rw [hg]
              simp [htc]
            by_cases hsc : is_stub c = true
            · have hT : getV m' "transformations".data =
                  some transformDefault := by
                rw [hTm', hfr]
                simp [hsc]
              have hstep : enrichField true gpt m' "transformations".data =
                  setV m' "transformations".data c := by
                simp [enrichField, hg, htc]
              rw [hstep]
              unfold applyTransformDefault
              rw [getV_setV_self]
              show (if is_stub c = true
                  then setV (setV m' "transformations".data c)
                    "transformations".data transformDefault
                  else setV m' "transformations".data c) = m'
              rw [if_pos hsc, setV_setV, setV_of_getV m' hT]
            · have hsc' : is_stub c = false := by simpa using hsc
              have hT : getV m' "transformations".data = some c := by
                rw [hTm', hfr]
                simp [hsc']
              have hstep : enrichField true gpt m' "transformations".data = m' := by
                simp [enrichField, hg, htc, setV_of_getV m' hT]
              rw [hstep]
              exact atd_of_not_stub hT hsc'
          · have ho' : o = false := by simpa using ho
            subst ho'
            obtain ⟨w, hw, hws⟩ :=
              hm' ▸ atd_result_nonstub (enrichFields false gpt m1)
            have hnf : needFill m' "transformations".data = false := by
              unfold needFill
              rw [hw, needFillV_some, hws]
            have hstep : enrichField false gpt m' "transformations".data = m' := by
              simp [enrichField, hnf]
            rw [hstep]
            exact atd_of_not_stub hw hws
        · have hstep : enrichField o gpt m' "transformations".data = m' := by
            simp [enrichField, hg, htc]
          rw [hstep]
          obtain ⟨w, hw, hws⟩ :=
            hm' ▸ atd_result_nonstub (enrichFields o gpt m1)
          exact atd_of_not_stub hw hws
    have final : applyTransformDefault (enrichFields o gpt m') = m' := by
      rw [hfold]
      exact hTall
    unfold enrich
    simp only [hA2]
    rw [final]

/-- C7, witness: the pass output on the empty record is a fixed point of a
second pass. -/
theorem C7_enrich_idempotent_witness :
    enrich false [] [] [] []
        [("assets".data, encodeAssets []),
         ("transformations".data, transformDefault)] =
      some [("assets".data, encodeAssets []),
        ("transformations".data, transformDefault)] :=
  C7_enrich_idempotent false [] [] [] [] []
    [("assets".data, encodeAssets []),
     ("transformations".data, transformDefault)] rfl
